import Mathlib

/-!
Verification of the iFetch differential transfer and versioning engine.

This file shallowly embeds the core of the repository in Lean:

* `chunker.py` (`FileChunker.get_file_chunks`, `FileChunker.find_changed_chunks`)
* `versioning.py` (`VersionManager.record_version`)
* `downloader.py` (`DownloadManager.download_chunk`,
  `DownloadManager.get_drive_item`, `DownloadManager.download_drive_item`)

Files are byte lists, paths are strings, the local tree is an association
list from path to content, and the engine's shared state (result list,
version ledger, checkpoint sidecar) is threaded explicitly.  Network and
clock effects are parameters of an `Env` record: the outcome of opening the
remote stream, the outcome of each ranged fetch, whether the versioning
relocation (`shutil.move`) succeeds, and the timestamp string.
-/

namespace IFetch

/-! ## Definitions -/

/-! ### Association lists (Python `dict`, and the local file tree)

`aset` mirrors Python dictionary assignment `d[k] = v`: an existing key is
updated in place (keeping its insertion position), a fresh key is appended.
`aremove` mirrors deletion, `alookup` mirrors `d.get(k)`.  The same
operations model the local file tree: `alookup` is "read file if it
exists", `aset` is "write file", `aremove` is "delete file". -/

def alookup {κ α : Type} [DecidableEq κ] : List (κ × α) → κ → Option α
  | [], _ => none
  | (k', v) :: rest, k => if k' = k then some v else alookup rest k

def aset {κ α : Type} [DecidableEq κ] : List (κ × α) → κ → α → List (κ × α)
  | [], k, v => [(k, v)]
  | (k', v') :: rest, k, v =>
    if k' = k then (k, v) :: rest else (k', v') :: aset rest k v

def aremove {κ α : Type} [DecidableEq κ] : List (κ × α) → κ → List (κ × α)
  | [], _ => []
  | (k', v) :: rest, k =>
    if k' = k then aremove rest k else (k', v) :: aremove rest k

/-! ### Chunk fingerprinter (`chunker.py`)

`readChunks` models the read loop of `FileChunker.get_file_chunks`: it reads
`chunkSize`-byte blocks sequentially and pairs each block's content with its
inclusive byte range `(position, position + len - 1)`.  The hash of a block
is modelled by the block's content itself (an ideal, injective digest:
equal content gives equal keys, which is all `hashlib.md5` guarantees that
the code relies on).  `get_file_chunks` then performs the dictionary
insertions of the loop, in order, via `aset`. -/

def readChunksGo (C : Nat) : Nat → List Nat → Nat → List (List Nat × (Nat × Nat))
  | _, [], _ => []
  | 0, _ :: _, _ => []
  | fuel + 1, c :: cs, pos =>
    if C = 0 then []
    else
      let chunk := (c :: cs).take C
      (chunk, (pos, pos + chunk.length - 1)) ::
        readChunksGo C fuel ((c :: cs).drop C) (pos + chunk.length)

/-- The read loop of `get_file_chunks`.  The explicit fuel (the number of
remaining bytes suffices, since every non-final read consumes `C ≥ 1`
bytes) only makes the recursion structural; it never runs out. -/
def readChunks (C : Nat) (content : List Nat) (pos : Nat) :
    List (List Nat × (Nat × Nat)) :=
  readChunksGo C content.length content pos

/-- Model of `FileChunker.get_file_chunks`: returns the empty map for a
missing or zero-length file, otherwise builds the hash-keyed chunk
dictionary by inserting each block in on-disk order. -/
def get_file_chunks (C : Nat) (file : Option (List Nat)) :
    List (List Nat × (Nat × Nat)) :=
  match file with
  | none => []
  | some content =>
    if content.length = 0 then []
    else (readChunks C content 0).foldl (fun d e => aset d e.1 e.2) []

/-- Model of `FileChunker.find_changed_chunks`.  `contentLength` is the
parsed `content-length` header (`none` models a missing header, which
Python's `headers.get('content-length', 0)` turns into `0`); `localSize`
is `some s` when `local_path` was supplied and exists with size `s`. -/
def find_changed_chunks (contentLength : Option Nat)
    (existingChunks : List (List Nat × (Nat × Nat)))
    (localSize : Option Nat) : List (Nat × Nat) :=
  let totalSize := contentLength.getD 0
  if totalSize = 0 then []
  else if existingChunks = [] then [(0, totalSize - 1)]
  else
    match localSize with
    | some ls => if ls = totalSize then [] else [(0, totalSize - 1)]
    | none => [(0, totalSize - 1)]

/-- The diff policy exactly as the specification words it (§4.1): remote
size zero means nothing to do; an empty local chunk map means a full fetch;
a local file whose size equals the remote size means no fetch; otherwise a
full fetch. -/
def diffPolicySpec (remoteSize : Nat)
    (existingChunks : List (List Nat × (Nat × Nat)))
    (localSize : Option Nat) : List (Nat × Nat) :=
  if remoteSize = 0 then []
  else if existingChunks = [] then [(0, remoteSize - 1)]
  else if localSize = some remoteSize then []
  else [(0, remoteSize - 1)]

/-- `contiguousFrom pos rs` holds when the inclusive ranges `rs` tile the
byte interval starting at `pos` with no gap and no overlap, in order. -/
def contiguousFrom : Nat → List (Nat × Nat) → Bool
  | _, [] => true
  | pos, (s, e) :: rest => s == pos && decide (pos ≤ e) && contiguousFrom (e + 1) rest

/-! ### Version archive (`versioning.py`) -/

structure VersionRecord where
  version : Nat
  checksum : String
  archived_path : String
  timestamp : String
deriving DecidableEq, Repr

/-- The `VersionManager` ledger: `data` is the in-memory `_data` dictionary,
`disk` is what the last successful `_save` persisted to the metadata file. -/
structure Ledger where
  data : List (String × List VersionRecord)
  disk : List (String × List VersionRecord)
deriving DecidableEq, Repr

/-- The local tree: path → file content. -/
abbrev FS := List (String × List Nat)

/-- The next version number computed at the top of `record_version`:
`existing[-1]["version"] + 1 if existing else 1` (an absent key and an
empty record list both yield 1). -/
def nextVersionNr (data : List (String × List VersionRecord)) (key : String) : Nat :=
  match ((alookup data key).getD []).getLast? with
  | some r => r.version + 1
  | none => 1

/-- The archive destination `versions_dir / f"{rel_path}.v{version_nr}_{ts}"`,
as a path relative to the download root. -/
def versionDest (data : List (String × List VersionRecord))
    (relPath ts : String) : String :=
  ".versions/" ++ relPath ++ ".v" ++ toString (nextVersionNr data relPath) ++ "_" ++ ts

/-- Model of `VersionManager.record_version`.  `moveOk` is whether
`shutil.move` succeeds; a failed move (or a missing source file, which
makes the move raise `OSError`) leaves ledger and tree untouched — the
caught exception is swallowed.  On success the source file is relocated to
the archive destination, the record list for the key is extended, and
`_save` synchronises the on-disk copy. -/
def record_version (led : Ledger) (fs : FS)
    (relPath checksum srcFile ts : String) (moveOk : Bool) : Ledger × FS :=
  let key := relPath
  let versionNr := nextVersionNr led.data key
  let dest := versionDest led.data relPath ts
  match alookup fs srcFile, moveOk with
  | some content, true =>
    let fs' := aset (aremove fs srcFile) dest content
    let versions := (alookup led.data key).getD []
    let data' := aset led.data key
      (versions ++ [{ version := versionNr, checksum := checksum,
                      archived_path := dest, timestamp := ts }])
    (⟨data', data'⟩, fs')
  | _, _ => (led, fs)

/-! ### Range transfer client (`DownloadManager.download_chunk`) -/

/-- One attempt of `requests.get`: either the request raises a
`RequestException` (connection error, or the 4xx/5xx raised by
`raise_for_status`), or it returns a response with a status code and body. -/
inductive HttpAttempt where
  | raises (msg : String)
  | response (code : Nat) (content : List Nat)

/-- `Response.raise_for_status` raises exactly for 4xx/5xx status codes. -/
def raise_for_status (code : Nat) : Option String :=
  if 400 ≤ code then some ("HTTP error " ++ toString code) else none

/-- Observable outcome of the `download_chunk` retry loop under a bounded
iteration budget: returned content, a raised fatal error, or `running` —
the loop has neither returned nor raised within the budget. -/
inductive ChunkResult where
  | ok (content : List Nat)
  | fatal (msg : String)
  | running
deriving DecidableEq, Repr

def optErrStr : Option String → String
  | some m => m
  | none => "None"

def chunkFatalMsg (s e maxRetries : Nat) (lastError : Option String) : String :=
  "Failed to download chunk " ++ toString s ++ "-" ++ toString e ++
    " after " ++ toString maxRetries ++ " retries: " ++ optErrStr lastError

/-- The `while retries < max_retries` loop of `download_chunk`, iteration
by iteration.  `attempts i` is the outcome of the `i`-th `requests.get`.
Only a raised exception increments `retries` and sleeps; a response that
passes `raise_for_status` but is not 200/206 loops again with `retries`
unchanged.  `fuel` bounds the number of loop iterations observed. -/
def download_chunk_go (maxRetries : Nat) (attempts : Nat → HttpAttempt)
    (s e : Nat) : Nat → Nat → Nat → Option String → ChunkResult
  | 0, _, retries, lastError =>
    if maxRetries ≤ retries then .fatal (chunkFatalMsg s e maxRetries lastError)
    else .running
  | fuel + 1, i, retries, lastError =>
    if maxRetries ≤ retries then .fatal (chunkFatalMsg s e maxRetries lastError)
    else
      match attempts i with
      | .raises msg =>
        download_chunk_go maxRetries attempts s e fuel (i + 1) (retries + 1) (some msg)
      | .response code content =>
        match raise_for_status code with
        | some msg =>
          download_chunk_go maxRetries attempts s e fuel (i + 1) (retries + 1) (some msg)
        | none =>
          if code = 200 ∨ code = 206 then .ok content
          else download_chunk_go maxRetries attempts s e fuel (i + 1) retries lastError

/-- Model of `DownloadManager.download_chunk` run for at most `fuel` loop
iterations. -/
def download_chunk (maxRetries : Nat) (attempts : Nat → HttpAttempt)
    (s e fuel : Nat) : ChunkResult :=
  download_chunk_go maxRetries attempts s e fuel 0 0 none

/-! ### Path resolution (`DownloadManager.get_drive_item`) -/

/-- A remote drive item: a leaf file (with an opaque identity) or a folder
with named children.  Indexing (`item[part]`) succeeds only on a folder
that has the named child; on a file or a missing name it raises
`KeyError`/`AttributeError`, modelled by `none`. -/
inductive DriveNode where
  | file (id : Nat)
  | folder (children : List (String × DriveNode))

/-- The `for part in parts: item = item[part]` traversal; `none` models the
`KeyError`/`AttributeError` that aborts it. -/
def walk : DriveNode → List String → Option DriveNode
  | item, [] => some item
  | item, p :: rest =>
    match item with
    | .file _ => none
    | .folder children =>
      match alookup children p with
      | none => none
      | some child => walk child rest

/-- `[p for p in path.strip("/").split("/") if p]`. -/
def pathParts (path : String) : List String :=
  ((path.toList.splitOn '/').map (fun cs => String.mk cs)).filter (fun s => s ≠ "")

/-- Model of `DownloadManager.get_drive_item`: walk the owned root; on any
`KeyError`/`AttributeError` during that walk, retry the whole path from the
shared root (if there is one); failure of both raises "Path not found". -/
def get_drive_item (owned : DriveNode) (shared : Option DriveNode)
    (path : String) : Except String DriveNode :=
  let parts := pathParts path
  if parts = [] then .ok owned
  else
    match walk owned parts with
    | some item => .ok item
    | none =>
      match shared with
      | none => .error ("Path not found: " ++ path)
      | some sh =>
        match walk sh parts with
        | some item => .ok item
        | none => .error ("Path not found: " ++ path)

/-! ### File sync engine (`DownloadManager.download_drive_item`) -/

/-- Modelled from the spec: `models.py` is not under `src/`.  The
TransferResult record of §3, with the field set and defaults read off the
constructor calls in `downloader.py` and `tests/test_utils_models.py`. -/
structure DownloadStatus where
  path : String
  size : Nat
  downloaded : Nat
  checksum : String
  status : String
  changes : Nat
  error : String
deriving DecidableEq, Repr

/-- The engine state touched by one `download_drive_item` call: the local
tree, the run's result list, the version ledger, and the checkpoint sidecar
for this path (`none` = no sidecar; modelled from the spec §4.2, since
`tracker.py` is not under `src/`: `save_status p` overwrites the sidecar
with `p`, `cleanup` removes it). -/
structure DState where
  files : FS
  results : List DownloadStatus
  ledger : Ledger
  checkpoint : Option Nat
deriving DecidableEq, Repr

/-- The remote stream's response metadata: the `content-length` header. -/
structure Response where
  contentLength : Option Nat
deriving DecidableEq, Repr

/-- The effectful environment of one transfer: whether the item has the
`name`/`open` attributes, the outcome of `_open_with_retry`, the outcome of
each `download_chunk` call by byte range, whether the versioning
`shutil.move` succeeds, and the timestamp. -/
structure Env where
  itemValid : Bool
  openResult : Except String Response
  fetch : Nat → Nat → Except String (List Nat)
  moveOk : Bool
  ts : String

/-- SHA-256 modelled as an ideal (injective, deterministic) digest of the
content. -/
def sha256Hex (content : List Nat) : String := "sha256:" ++ toString content

/-- `f.seek(off); f.write(b)` on a file opened `r+b`: overwrite in place,
zero-fill any gap beyond the current end, extend as needed. -/
def writeAt (c : List Nat) (off : Nat) (b : List Nat) : List Nat :=
  (c.take off ++ List.replicate (off - c.length) 0) ++ b ++ c.drop (off + b.length)

/-- The ranged-fetch loop: for each changed range in order, fetch it, write
it into the staging content at its offset, and overwrite the checkpoint
sidecar with `end + 1`.  A raised fetch error aborts the loop; the
checkpoint keeps the last saved value either way. -/
def fetchLoop (fetch : Nat → Nat → Except String (List Nat)) :
    List (Nat × Nat) → List Nat → Option Nat → Except String (List Nat) × Option Nat
  | [], temp, cp => (.ok temp, cp)
  | (s, e) :: rest, temp, cp =>
    match fetch s e with
    | .error msg => (.error msg, cp)
    | .ok bytes => fetchLoop fetch rest (writeAt temp s bytes) (some (e + 1))

/-- The failed TransferResult appended by the `except` handler:
`DownloadStatus(path, size=total_size, downloaded=0, checksum="",
status="failed", error=e)`. -/
def failResult (localPath : String) (totalSize : Nat) (e : String) : DownloadStatus :=
  { path := localPath, size := totalSize, downloaded := 0, checksum := "",
    status := "failed", changes := 0, error := e }

/-- Lines 288–331 of `downloader.py`: the verify-and-commit step.  If the
staging file exists and is non-empty: checksum it, rename it over the local
file, append the completed TransferResult, clear the checkpoint sidecar,
and (with versioning on) write the synthetic version-0 baseline when the
path has no ledger entry at all, then persist the ledger.  Otherwise log
the "Temporary file is empty or doesn't exist" error and return failure
without touching anything. -/
def verifyCommit (versioningOn : Bool) (localPath tempPath relPath ts : String)
    (totalSize bytesToDownload nRanges : Nat) (st : DState) : Bool × DState :=
  match alookup st.files tempPath with
  | some c =>
    if 0 < c.length then
      let checksum := sha256Hex c
      let files' := aset (aremove st.files tempPath) localPath c
      let results' := st.results ++
        [{ path := localPath, size := totalSize, downloaded := bytesToDownload,
           checksum := checksum, status := "completed", changes := nRanges,
           error := "" }]
      let led' :=
        if versioningOn then
          let data' :=
            if alookup st.ledger.data relPath = none then
              aset st.ledger.data relPath
                [{ version := 0, checksum := checksum,
                   archived_path := localPath, timestamp := ts }]
            else st.ledger.data
          Ledger.mk data' data'
        else st.ledger
      (true, ⟨files', results', led', none⟩)
    else (false, st)
  | none => (false, st)

/-- Lines 244–251 of `downloader.py`: when a local file exists and
versioning is enabled, checksum it and hand it to
`VersionManager.record_version`; the surrounding `try/except: pass`
swallows every failure, and a failed move already leaves state untouched
inside `record_version` itself. -/
def backupResult (env : Env) (versioningOn : Bool) (localPath relPath : String)
    (st : DState) : Ledger × FS :=
  if (alookup st.files localPath).isSome && versioningOn then
    record_version st.ledger st.files relPath
      (sha256Hex ((alookup st.files localPath).getD [])) localPath
      env.ts env.moveOk
  else (st.ledger, st.files)

/-- Lines 256–262 of `downloader.py`: create the staging file, either as a
copy of the (still) existing local file or zero-filled to `total_size`
bytes. -/
def stagingFiles (files1 : FS) (localPath tempPath : String) (totalSize : Nat) : FS :=
  match alookup files1 localPath with
  | some c => aset files1 tempPath c
  | none => aset files1 tempPath (List.replicate totalSize 0)

/-- Lines 264–331 of `downloader.py`, given the outcome of the fetch loop:
a raised fetch error lands in the `except` handler (delete the staging
file, append the failed result with `downloaded=0`); a completed loop
proceeds to the verify-and-commit step. -/
def afterFetch (versioningOn : Bool) (localPath tempPath relPath ts : String)
    (totalSize bytesToDownload nRanges : Nat) (st : DState) (led1 : Ledger)
    (files2 : FS) (flr : Except String (List Nat) × Option Nat) : Bool × DState :=
  match flr with
  | (.error e, cp') =>
    (false, ⟨aremove files2 tempPath,
             st.results ++ [failResult localPath totalSize e], led1, cp'⟩)
  | (.ok tempContent, cp') =>
    verifyCommit versioningOn localPath tempPath relPath ts totalSize
      bytesToDownload nRanges
      ⟨aset files2 tempPath tempContent, st.results, led1, cp'⟩

/-- Lines 241–331 of `downloader.py`: everything after the ChangeSet has
been found non-empty — versioning backup, staging-file creation, the fetch
loop, and verify-and-commit. -/
def stageAndFetch (env : Env) (versioningOn : Bool) (localPath relPath : String)
    (st : DState) (totalSize : Nat) (changedRanges : List (Nat × Nat)) : Bool × DState :=
  afterFetch versioningOn localPath (localPath ++ ".temp") relPath env.ts totalSize
    ((changedRanges.map (fun r => r.2 + 1 - r.1)).sum) changedRanges.length st
    (backupResult env versioningOn localPath relPath st).1
    (stagingFiles (backupResult env versioningOn localPath relPath st).2
      localPath (localPath ++ ".temp") totalSize)
    (fetchLoop env.fetch changedRanges
      ((alookup (stagingFiles (backupResult env versioningOn localPath relPath st).2
          localPath (localPath ++ ".temp") totalSize) (localPath ++ ".temp")).getD [])
      st.checkpoint)

/-- Lines 229–239 of `downloader.py`: read the declared total size, build
the local chunk map, diff; an empty ChangeSet just logs `file_unchanged`
and returns `True` — nothing is appended and nothing is touched. -/
def downloadBody (env : Env) (versioningOn : Bool) (chunkSize : Nat)
    (localPath relPath : String) (st : DState) (response : Response) : Bool × DState :=
  if find_changed_chunks response.contentLength
      (get_file_chunks chunkSize (alookup st.files localPath))
      ((alookup st.files localPath).map List.length) = [] then (true, st)
  else
    stageAndFetch env versioningOn localPath relPath st
      (response.contentLength.getD 0)
      (find_changed_chunks response.contentLength
        (get_file_chunks chunkSize (alookup st.files localPath))
        ((alookup st.files localPath).map List.length))

/-- Model of `DownloadManager.download_drive_item`.  Mirrors the source:
invalid item → `False` with nothing appended; open the stream (a raised
open error goes to the `except` handler with `total_size = 0` and no
staging file yet to delete); then the body. -/
def download_drive_item (env : Env) (versioningOn : Bool) (chunkSize : Nat)
    (localPath relPath : String) (st : DState) : Bool × DState :=
  if env.itemValid = false then (false, st)
  else
    match env.openResult with
    | .error e =>
      (false, { st with results := st.results ++ [failResult localPath 0 e] })
    | .ok response =>
      downloadBody env versioningOn chunkSize localPath relPath st response

/-! ### Concrete scenarios used by the closed theorems -/

/-- Remote reports 5 bytes, every ranged fetch raises, the versioning move
succeeds. -/
def envC1 : Env :=
  { itemValid := true, openResult := .ok ⟨some 5⟩,
    fetch := fun _ _ => .error "network down", moveOk := true, ts := "T" }

/-- A committed local file of 3 bytes at path `f`; empty ledger. -/
def stC1 : DState := ⟨[("f", [1, 2, 3])], [], ⟨[], []⟩, none⟩

/-- Remote reports 3 bytes and every ranged fetch returns an empty body
(HTTP 200 with no content). -/
def envC5 : Env :=
  { itemValid := true, openResult := .ok ⟨some 3⟩,
    fetch := fun _ _ => .ok [], moveOk := false, ts := "T" }

/-- A zero-length committed local file at path `f`. -/
def stC5 : DState := ⟨[("f", [])], [], ⟨[], []⟩, none⟩

/-- Remote reports 2 bytes; the fetch outcome is irrelevant because the
local size matches. -/
def envC6 : Env :=
  { itemValid := true, openResult := .ok ⟨some 2⟩,
    fetch := fun _ _ => .error "unused", moveOk := false, ts := "T" }

/-- A committed local file of 2 bytes at path `g`. -/
def stC6 : DState := ⟨[("g", [7, 7])], [], ⟨[], []⟩, none⟩

/-- The remote stream's response carries no `content-length` header. -/
def envC10 : Env :=
  { itemValid := true, openResult := .ok ⟨none⟩,
    fetch := fun _ _ => .error "unused", moveOk := false, ts := "T" }

/-- A state already holding a non-empty staging file `f.temp` and a stale
checkpoint sidecar, about to be committed. -/
def stC2 : DState := ⟨[("f.temp", [9, 9])], [], ⟨[], []⟩, some 5⟩

/-! ## Theorems -/

/-! ### Association list lemmas -/

@[simp] theorem alookup_nil {κ α : Type} [DecidableEq κ] (k : κ) :
    alookup ([] : List (κ × α)) k = none := rfl

theorem alookup_aset_self {κ α : Type} [DecidableEq κ]
    (l : List (κ × α)) (k : κ) (v : α) : alookup (aset l k v) k = some v := by
  induction l with
  | nil => simp [aset, alookup]
  | cons hd tl ih =>
    obtain ⟨k', v'⟩ := hd
    by_cases h : k' = k <;> simp [aset, alookup, h, ih]

theorem alookup_aset_ne {κ α : Type} [DecidableEq κ]
    (l : List (κ × α)) (k k' : κ) (v : α) (h : k' ≠ k) :
    alookup (aset l k v) k' = alookup l k' := by
  induction l with
  | nil => simp [aset, alookup, Ne.symm h]
  | cons hd tl ih =>
    obtain ⟨k₀, v₀⟩ := hd
    by_cases h0 : k₀ = k
    · subst h0
      simp [aset, alookup, Ne.symm h]
    · by_cases h1 : k₀ = k' <;> simp [aset, alookup, h0, h1, h, ih]

theorem alookup_aremove_self {κ α : Type} [DecidableEq κ]
    (l : List (κ × α)) (k : κ) : alookup (aremove l k) k = none := by
  induction l with
  | nil => simp [aremove]
  | cons hd tl ih =>
    obtain ⟨k', v'⟩ := hd
    by_cases h : k' = k <;> simp [aremove, alookup, h, ih]

theorem alookup_aremove_ne {κ α : Type} [DecidableEq κ]
    (l : List (κ × α)) (k k' : κ) (h : k' ≠ k) :
    alookup (aremove l k) k' = alookup l k' := by
  induction l with
  | nil => simp [aremove]
  | cons hd tl ih =>
    obtain ⟨k₀, v₀⟩ := hd
    by_cases h0 : k₀ = k
    · subst h0
      simp [aremove, alookup, Ne.symm h, ih]
    · by_cases h1 : k₀ = k' <;> simp [aremove, alookup, h0, h1, h, ih]

theorem alookup_eq_none_of_not_mem {κ α : Type} [DecidableEq κ]
    (l : List (κ × α)) (k : κ) (h : k ∉ l.map Prod.fst) :
    alookup l k = none := by
  induction l with
  | nil => rfl
  | cons hd tl ih =>
    obtain ⟨k', v'⟩ := hd
    simp only [List.map_cons, List.mem_cons] at h
    push_neg at h
    simp [alookup, Ne.symm h.1, ih h.2]

theorem aset_of_not_mem {κ α : Type} [DecidableEq κ]
    (l : List (κ × α)) (k : κ) (v : α) (h : k ∉ l.map Prod.fst) :
    aset l k v = l ++ [(k, v)] := by
  induction l with
  | nil => rfl
  | cons hd tl ih =>
    obtain ⟨k', v'⟩ := hd
    simp only [List.map_cons, List.mem_cons] at h
    push_neg at h
    simp [aset, Ne.symm h.1, ih h.2]

/-! ### Chunker lemmas -/

theorem readChunksGo_spec (C : Nat) (hC : 0 < C) :
    ∀ (fuel : Nat) (content : List Nat) (pos : Nat),
      content.length ≤ fuel → content ≠ [] →
      (readChunksGo C fuel content pos).length = (content.length + C - 1) / C
      ∧ contiguousFrom pos ((readChunksGo C fuel content pos).map Prod.snd) = true
      ∧ (∀ r ∈ ((readChunksGo C fuel content pos).map Prod.snd).dropLast,
          r.2 + 1 - r.1 = C)
      ∧ (∀ r, ((readChunksGo C fuel content pos).map Prod.snd).getLast? = some r →
          r.2 + 1 - r.1 = if content.length % C = 0 then C else content.length % C)
      ∧ ((readChunksGo C fuel content pos).map (fun e => e.2.2 + 1 - e.2.1)).sum
          = content.length
      ∧ readChunksGo C fuel content pos ≠ [] := by
  intro fuel
  induction fuel with
  | zero =>
    intro content pos hfuel hne
    cases content with
    | nil => exact absurd rfl hne
    | cons c cs => simp at hfuel
  | succ fuel ih =>
    intro content pos hfuel hne
    cases content with
    | nil => exact absurd rfl hne
    | cons c cs =>
    have hCne : ¬ C = 0 := Nat.pos_iff_ne_zero.mp hC
    set L := (c :: cs).length with hL
    have hL1 : 1 ≤ L := by simp [hL]
    have hchunklen : ((c :: cs).take C).length = min C L := by
      simp [hL, List.length_take]
    by_cases hle : L ≤ C
    · -- the whole remaining content fits in one chunk
      have hdrop : (c :: cs).drop C = [] := List.drop_eq_nil_of_le hle
      have hres : readChunksGo C (fuel + 1) (c :: cs) pos =
          [((c :: cs).take C, (pos, pos + ((c :: cs).take C).length - 1))] := by
        simp [readChunksGo, hCne, hdrop]
      have hlen : ((c :: cs).take C).length = L := by
        rw [hchunklen]; omega
      rw [hres, hlen]
      have hdiv : (L + C - 1) / C = 1 := by
        have he : L + C - 1 = (L - 1) + C := by omega
        rw [he, Nat.add_div_right _ hC, Nat.div_eq_of_lt (by omega)]
      have hmod : (if L % C = 0 then C else L % C) = L := by
        rcases Nat.lt_or_ge L C with hlt | hge
        · rw [Nat.mod_eq_of_lt hlt]
          have : ¬ L = 0 := by omega
          simp [this]
        · have : L = C := by omega
          simp [this, Nat.mod_self]
      refine ⟨by simp [hdiv], ?_, by simp, ?_, by simp; omega, by simp⟩
      · simp [contiguousFrom]; omega
      · intro r hr
        simp at hr
        rw [← hr]
        simp [hmod]
        omega
    · -- a full chunk of size C, then recurse on the rest
      push_neg at hle
      have hminC : min C L = C := by omega
      have hrestlen : ((c :: cs).drop C).length = L - C := by
        simp [List.length_drop, hL]
      have hrestne : (c :: cs).drop C ≠ [] := by
        intro hnil
        rw [hnil] at hrestlen
        simp at hrestlen
        omega
      have hrestfuel : ((c :: cs).drop C).length ≤ fuel := by
        rw [hrestlen]
        simp [hL] at hfuel ⊢
        omega
      obtain ⟨ih1, ih2, ih3, ih4, ih5, ih6⟩ :=
        ih ((c :: cs).drop C) (pos + C) hrestfuel hrestne
      have hres : readChunksGo C (fuel + 1) (c :: cs) pos =
          ((c :: cs).take C, (pos, pos + C - 1)) ::
            readChunksGo C fuel ((c :: cs).drop C) (pos + C) := by
        simp only [readChunksGo, hCne, if_false]
        rw [hchunklen, hminC]
      rw [hres]
      obtain ⟨r0, rest0, hrest0⟩ : ∃ r0 rest0,
          readChunksGo C fuel ((c :: cs).drop C) (pos + C) = r0 :: rest0 := by
        cases hcase : readChunksGo C fuel ((c :: cs).drop C) (pos + C) with
        | nil => exact absurd hcase ih6
        | cons a l => exact ⟨a, l, rfl⟩
      refine ⟨?_, ?_, ?_, ?_, ?_, by simp⟩
      · -- length
        simp only [List.length_cons, ih1, hrestlen]
        have he1 : L - C + C - 1 = L - 1 := by omega
        have he2 : L + C - 1 = (L - 1) + C := by omega
        rw [he1, he2, Nat.add_div_right _ hC]
      · -- contiguity
        simp only [List.map_cons, contiguousFrom]
        have he : pos + C - 1 + 1 = pos + C := by omega
        rw [he]
        simp [ih2]
        omega
      · -- all chunks except the last have length C
        rw [hrest0] at ih3 ⊢
        simp only [List.map_cons, List.dropLast_cons₂]
        intro r hr
        rcases List.mem_cons.mp hr with hr | hr
        · rw [hr]; omega
        · exact ih3 r hr
      · -- the last chunk
        rw [hrest0] at ih4 ⊢
        simp only [List.map_cons, List.getLast?_cons_cons]
        intro r hr
        have := ih4 r hr
        rw [hrestlen] at this
        rw [Nat.mod_eq_sub_mod (le_of_lt hle)]
        exact this
      · -- lengths sum to the file size
        simp only [List.map_cons, List.sum_cons, ih5, hrestlen]
        omega

theorem readChunks_spec (C : Nat) (content : List Nat) (pos : Nat)
    (hC : 0 < C) (hne : content ≠ []) :
    (readChunks C content pos).length = (content.length + C - 1) / C
    ∧ contiguousFrom pos ((readChunks C content pos).map Prod.snd) = true
    ∧ (∀ r ∈ ((readChunks C content pos).map Prod.snd).dropLast,
        r.2 + 1 - r.1 = C)
    ∧ (∀ r, ((readChunks C content pos).map Prod.snd).getLast? = some r →
        r.2 + 1 - r.1 = if content.length % C = 0 then C else content.length % C)
    ∧ ((readChunks C content pos).map (fun e => e.2.2 + 1 - e.2.1)).sum
        = content.length
    ∧ readChunks C content pos ≠ [] :=
  readChunksGo_spec C hC content.length content pos (le_refl _) hne

theorem foldl_aset_of_nodup {κ α : Type} [DecidableEq κ] :
    ∀ (l acc : List (κ × α)), (acc.map Prod.fst ++ l.map Prod.fst).Nodup →
      l.foldl (fun d e => aset d e.1 e.2) acc = acc ++ l := by
  intro l
  induction l with
  | nil => intro acc _; simp
  | cons hd tl ih =>
    intro acc hnd
    obtain ⟨k, v⟩ := hd
    have hk : k ∉ acc.map Prod.fst := by
      rcases List.nodup_append.mp hnd with ⟨_, _, hdisj⟩
      intro hmem
      exact hdisj hmem (by simp)
    have hstep : aset acc k v = acc ++ [(k, v)] := aset_of_not_mem acc k v hk
    have hnd' : ((acc ++ [(k, v)]).map Prod.fst ++ tl.map Prod.fst).Nodup := by
      simp only [List.map_append, List.map_cons, List.map_nil] at hnd ⊢
      simpa [List.append_assoc] using hnd
    calc ((k, v) :: tl).foldl (fun d e => aset d e.1 e.2) acc
        = tl.foldl (fun d e => aset d e.1 e.2) (acc ++ [(k, v)]) := by
          simp [List.foldl_cons, hstep]
      _ = (acc ++ [(k, v)]) ++ tl := ih (acc ++ [(k, v)]) hnd'
      _ = acc ++ ((k, v) :: tl) := by simp

/-- When the file's chunk contents are pairwise distinct, no dictionary key
collides and the chunk map is exactly the read-loop's chunk list. -/
theorem get_file_chunks_eq_readChunks (C : Nat) (content : List Nat)
    (hne : content ≠ [])
    (hnd : ((readChunks C content 0).map Prod.fst).Nodup) :
    get_file_chunks C (some content) = readChunks C content 0 := by
  have hlen : ¬ content.length = 0 := by
    simpa [List.length_eq_zero] using hne
  simp only [get_file_chunks, hlen, if_false]
  have := foldl_aset_of_nodup (readChunks C content 0) []
  simp only [List.map_nil, List.nil_append] at this
  simpa using this hnd

/-! ### Sync-engine lemmas -/

theorem append_temp_ne (s : String) : s ≠ s ++ ".temp" := by
  intro h
  have h1 : s.length = (s ++ ".temp").length := congrArg String.length h
  rw [String.length_append] at h1
  have h2 : ".temp".length = 5 := by decide
  omega

theorem stagingFiles_lookup_ne (files1 : FS) (lp tp : String) (tot : Nat)
    (p : String) (hp : p ≠ tp) :
    alookup (stagingFiles files1 lp tp tot) p = alookup files1 p := by
  unfold stagingFiles
  cases hx : alookup files1 lp <;>
    simp [hx, alookup_aset_ne _ _ _ _ hp]

theorem afterFetch_fail_files (vOn : Bool) (lp tp rp ts : String)
    (tot btd nr : Nat) (st : DState) (led1 : Ledger) (files2 : FS)
    (flr : Except String (List Nat) × Option Nat)
    (hfail : (afterFetch vOn lp tp rp ts tot btd nr st led1 files2 flr).1 = false) :
    ∀ p, p ≠ tp →
      alookup (afterFetch vOn lp tp rp ts tot btd nr st led1 files2 flr).2.files p
        = alookup files2 p := by
  obtain ⟨fr, cp'⟩ := flr
  cases fr with
  | error e =>
    intro p hp
    simp only [afterFetch]
    exact alookup_aremove_ne files2 tp p hp
  | ok tc =>
    intro p hp
    by_cases hl : 0 < tc.length
    · simp [afterFetch, verifyCommit, alookup_aset_self, hl] at hfail
    · have hres : afterFetch vOn lp tp rp ts tot btd nr st led1 files2 (.ok tc, cp')
          = (false, ⟨aset files2 tp tc, st.results, led1, cp'⟩) := by
        simp [afterFetch, verifyCommit, alookup_aset_self, hl]
      rw [hres]
      exact alookup_aset_ne files2 tp p tc hp

theorem backupResult_files (env : Env) (vOn : Bool) (lp rp : String) (st : DState) :
    (backupResult env vOn lp rp st).2 = st.files
    ∨ ∃ c, alookup st.files lp = some c ∧
        (backupResult env vOn lp rp st).2
          = aset (aremove st.files lp) (versionDest st.ledger.data rp env.ts) c := by
  unfold backupResult
  by_cases hvc : ((alookup st.files lp).isSome && vOn) = true
  · rw [if_pos hvc]
    cases hlp : alookup st.files lp with
    | none => rw [hlp] at hvc; simp at hvc
    | some c =>
      cases hmv : env.moveOk with
      | false =>
        left
        simp [record_version, hlp, hmv]
      | true =>
        right
        exact ⟨c, rfl, by simp [record_version, hlp, hmv]⟩
  · rw [if_neg hvc]
    exact Or.inl rfl

theorem stageAndFetch_fail (env : Env) (vOn : Bool) (lp rp : String)
    (st : DState) (tot : Nat) (rs : List (Nat × Nat))
    (hfail : (stageAndFetch env vOn lp rp st tot rs).1 = false)
    (hd1 : versionDest st.ledger.data rp env.ts ≠ lp ++ ".temp") :
    (alookup (stageAndFetch env vOn lp rp st tot rs).2.files lp = alookup st.files lp
      ∨ alookup (stageAndFetch env vOn lp rp st tot rs).2.files
          (versionDest st.ledger.data rp env.ts) = alookup st.files lp)
    ∧ ∀ p, p ≠ lp ++ ".temp" → p ≠ lp →
        p ≠ versionDest st.ledger.data rp env.ts →
        alookup (stageAndFetch env vOn lp rp st tot rs).2.files p
          = alookup st.files p := by
  have hlp_ne : lp ≠ lp ++ ".temp" := append_temp_ne lp
  unfold stageAndFetch at hfail ⊢
  have hAF := afterFetch_fail_files vOn lp (lp ++ ".temp") rp env.ts tot
    ((rs.map (fun r => r.2 + 1 - r.1)).sum) rs.length st
    (backupResult env vOn lp rp st).1
    (stagingFiles (backupResult env vOn lp rp st).2 lp (lp ++ ".temp") tot)
    (fetchLoop env.fetch rs
      ((alookup (stagingFiles (backupResult env vOn lp rp st).2 lp
          (lp ++ ".temp") tot) (lp ++ ".temp")).getD [])
      st.checkpoint) hfail
  have hC : ∀ p, p ≠ lp ++ ".temp" →
      alookup (afterFetch vOn lp (lp ++ ".temp") rp env.ts tot
          ((rs.map (fun r => r.2 + 1 - r.1)).sum) rs.length st
          (backupResult env vOn lp rp st).1
          (stagingFiles (backupResult env vOn lp rp st).2 lp (lp ++ ".temp") tot)
          (fetchLoop env.fetch rs
            ((alookup (stagingFiles (backupResult env vOn lp rp st).2 lp
                (lp ++ ".temp") tot) (lp ++ ".temp")).getD [])
            st.checkpoint)).2.files p
        = alookup (backupResult env vOn lp rp st).2 p := by
    intro p hp
    rw [hAF p hp]
    exact stagingFiles_lookup_ne _ lp (lp ++ ".temp") tot p hp
  rcases backupResult_files env vOn lp rp st with hB | ⟨c, hlpc, hB⟩
  · constructor
    · left
      rw [hC lp hlp_ne, hB]
    · intro p h1 _ _
      rw [hC p h1, hB]
  · constructor
    · right
      rw [hC (versionDest st.ledger.data rp env.ts) hd1, hB,
        alookup_aset_self, hlpc]
    · intro p h1 h2 h3
      rw [hC p h1, hB, alookup_aset_ne _ _ _ _ h3, alookup_aremove_ne _ _ _ h2]

/-- Shared skip lemma: when the computed ChangeSet is empty the engine
returns success with the state — files, results, ledger, checkpoint —
exactly as it was. -/
theorem download_skip_of_no_ranges (env : Env) (vOn : Bool) (cs : Nat)
    (lp rp : String) (st : DState) (r : Response)
    (henv : env.itemValid = true) (hopen : env.openResult = .ok r)
    (hrg : find_changed_chunks r.contentLength
        (get_file_chunks cs (alookup st.files lp))
        ((alookup st.files lp).map List.length) = []) :
    download_drive_item env vOn cs lp rp st = (true, st) := by
  simp [download_drive_item, henv, hopen, downloadBody, hrg]

theorem download_chunk_go_204 (c : List Nat) :
    ∀ fuel i retries lastError, retries < 3 →
      download_chunk_go 3 (fun _ => .response 204 c) 0 9 fuel i retries lastError
        = .running := by
  intro fuel
  induction fuel with
  | zero =>
    intro i retries lastError h
    simp [download_chunk_go, Nat.not_le.mpr h]
  | succ fuel ih =>
    intro i retries lastError h
    simp only [download_chunk_go, Nat.not_le.mpr h, if_false, raise_for_status]
    norm_num
    exact ih (i + 1) retries lastError h

/-! ### Claim theorems -/

/-- C1 (counterexample to the claim as stated): with versioning enabled, a
sync of an existing 3-byte file against a 5-byte remote whose fetch raises
ends in failure — and the previously committed local file at the target
path has been *moved away* (into the version archive) before the staging
copy was ever verified; the target path no longer holds it. -/
theorem download_failure_moves_local_file_counterexample :
    (download_drive_item envC1 true 4 "f" "f" stC1).1 = false
    ∧ alookup stC1.files "f" = some [1, 2, 3]
    ∧ alookup (download_drive_item envC1 true 4 "f" "f" stC1).2.files "f" = none
    ∧ alookup (download_drive_item envC1 true 4 "f" "f" stC1).2.files
        ".versions/f.v1_T" = some [1, 2, 3] := by
  refine ⟨by decide, by decide, by decide, by decide⟩

/-- C1 (amended): for every sync that ends in failure, the original file's
content is never destroyed: it is still at the target path, or (only with
versioning enabled) it has been relocated intact to the version-archive
destination; and no path other than the target, the staging file and the
archive destination is touched.  The non-aliasing hypothesis rules out a
pathological archive destination equal to the staging path. -/
theorem download_failure_preserves_original_content
    (env : Env) (versioningOn : Bool) (chunkSize : Nat)
    (localPath relPath : String) (st : DState)
    (hfail : (download_drive_item env versioningOn chunkSize localPath relPath st).1
        = false)
    (hd1 : versionDest st.ledger.data relPath env.ts ≠ localPath ++ ".temp") :
    (alookup (download_drive_item env versioningOn chunkSize localPath relPath st).2.files
          localPath = alookup st.files localPath
      ∨ alookup (download_drive_item env versioningOn chunkSize localPath relPath st).2.files
          (versionDest st.ledger.data relPath env.ts) = alookup st.files localPath)
    ∧ ∀ p, p ≠ localPath ++ ".temp" → p ≠ localPath →
        p ≠ versionDest st.ledger.data relPath env.ts →
        alookup (download_drive_item env versioningOn chunkSize localPath relPath st).2.files p
          = alookup st.files p := by
  cases henv : env.itemValid with
  | false =>
    have hres : download_drive_item env versioningOn chunkSize localPath relPath st
        = (false, st) := by
      simp [download_drive_item, henv]
    rw [hres]
    exact ⟨Or.inl rfl, fun p _ _ _ => rfl⟩
  | true =>
    cases hopen : env.openResult with
    | error e =>
      have hres : download_drive_item env versioningOn chunkSize localPath relPath st
          = (false, { st with results := st.results ++ [failResult localPath 0 e] }) := by
        simp [download_drive_item, henv, hopen]
      rw [hres]
      exact ⟨Or.inl rfl, fun p _ _ _ => rfl⟩
    | ok r =>
      by_cases hrg : find_changed_chunks r.contentLength
          (get_file_chunks chunkSize (alookup st.files localPath))
          ((alookup st.files localPath).map List.length) = []
      · have hres := download_skip_of_no_ranges env versioningOn chunkSize
          localPath relPath st r henv hopen hrg
        rw [hres] at hfail
        simp at hfail
      · have hres : download_drive_item env versioningOn chunkSize localPath relPath st
            = stageAndFetch env versioningOn localPath relPath st
                (r.contentLength.getD 0)
                (find_changed_chunks r.contentLength
                  (get_file_chunks chunkSize (alookup st.files localPath))
                  ((alookup st.files localPath).map List.length)) := by
          simp [download_drive_item, henv, hopen, downloadBody, hrg]
        rw [hres] at hfail ⊢
        exact stageAndFetch_fail env versioningOn localPath relPath st
          (r.contentLength.getD 0) _ hfail hd1

/-- C1 (witness): the amended theorem applied to the concrete failing
scenario of the counterexample; the preserved content sits at the archive
destination. -/
theorem download_failure_preserves_original_content_witness :
    ((download_drive_item envC1 true 4 "f" "f" stC1).1 = false
      ∧ versionDest stC1.ledger.data "f" envC1.ts ≠ "f" ++ ".temp")
    ∧ (alookup (download_drive_item envC1 true 4 "f" "f" stC1).2.files "f"
          = alookup stC1.files "f"
        ∨ alookup (download_drive_item envC1 true 4 "f" "f" stC1).2.files
            (versionDest stC1.ledger.data "f" envC1.ts) = alookup stC1.files "f") :=
  ⟨⟨by decide, by decide⟩,
    (download_failure_preserves_original_content envC1 true 4 "f" "f" stC1
      (by decide) (by decide)).1⟩

/-- C2: when the commit step finds a non-empty staging file it reports
success, renames the staging file over the local file, appends exactly one
completed TransferResult carrying the staging checksum, clears the
checkpoint sidecar, touches no other path, and — with versioning on and no
prior ledger entry for the path — records the synthetic version-0 baseline
and persists the ledger (an existing entry is left alone; with versioning
off the ledger is untouched). -/
theorem verifyCommit_commit_spec (vOn : Bool) (lp tp rp ts : String)
    (tot btd nr : Nat) (st : DState) (c : List Nat)
    (hc : alookup st.files tp = some c) (hcne : c ≠ []) (hlt : lp ≠ tp) :
    (verifyCommit vOn lp tp rp ts tot btd nr st).1 = true
    ∧ alookup (verifyCommit vOn lp tp rp ts tot btd nr st).2.files lp = some c
    ∧ alookup (verifyCommit vOn lp tp rp ts tot btd nr st).2.files tp = none
    ∧ (∀ p, p ≠ lp → p ≠ tp →
        alookup (verifyCommit vOn lp tp rp ts tot btd nr st).2.files p
          = alookup st.files p)
    ∧ (verifyCommit vOn lp tp rp ts tot btd nr st).2.results
        = st.results ++ [⟨lp, tot, btd, sha256Hex c, "completed", nr, ""⟩]
    ∧ (verifyCommit vOn lp tp rp ts tot btd nr st).2.checkpoint = none
    ∧ (vOn = true → alookup st.ledger.data rp = none →
        alookup (verifyCommit vOn lp tp rp ts tot btd nr st).2.ledger.data rp
            = some [⟨0, sha256Hex c, lp, ts⟩]
          ∧ (verifyCommit vOn lp tp rp ts tot btd nr st).2.ledger.disk
            = (verifyCommit vOn lp tp rp ts tot btd nr st).2.ledger.data)
    ∧ (vOn = true → alookup st.ledger.data rp ≠ none →
        (verifyCommit vOn lp tp rp ts tot btd nr st).2.ledger.data = st.ledger.data
          ∧ (verifyCommit vOn lp tp rp ts tot btd nr st).2.ledger.disk
            = st.ledger.data)
    ∧ (vOn = false →
        (verifyCommit vOn lp tp rp ts tot btd nr st).2.ledger = st.ledger) := by
  have hlen : 0 < c.length := List.length_pos.mpr hcne
  refine ⟨?_, ?_, ?_, ?_, ?_, ?_, ?_, ?_, ?_⟩
  · simp [verifyCommit, hc, hlen]
  · simp [verifyCommit, hc, hlen, alookup_aset_self]
  · simp only [verifyCommit, hc, hlen, if_true]
    rw [alookup_aset_ne _ _ _ _ (Ne.symm hlt)]
    exact alookup_aremove_self st.files tp
  · intro p h1 h2
    simp only [verifyCommit, hc, hlen, if_true]
    rw [alookup_aset_ne _ _ _ _ h1]
    exact alookup_aremove_ne st.files tp p h2
  · simp [verifyCommit, hc, hlen]
  · simp [verifyCommit, hc, hlen]
  · intro hv hn
    constructor
    · simp [verifyCommit, hc, hlen, hv, hn, alookup_aset_self]
    · simp [verifyCommit, hc, hlen, hv, hn]
  · intro hv hn
    constructor
    · simp [verifyCommit, hc, hlen, hv, hn]
    · simp [verifyCommit, hc, hlen, hv, hn]
  · intro hv
    simp [verifyCommit, hc, hlen, hv]

/-- C2 (witness): committing a concrete 2-byte staging file with
versioning on and an empty ledger. -/
theorem verifyCommit_commit_spec_witness :
    (verifyCommit true "f" "f.temp" "f" "T" 2 2 1 stC2).1 = true
    ∧ alookup (verifyCommit true "f" "f.temp" "f" "T" 2 2 1 stC2).2.files "f"
        = some [9, 9]
    ∧ (verifyCommit true "f" "f.temp" "f" "T" 2 2 1 stC2).2.checkpoint = none := by
  have h := verifyCommit_commit_spec true "f" "f.temp" "f" "T" 2 2 1 stC2 [9, 9]
    (by decide) (by decide) (by decide)
  exact ⟨h.1, h.2.1, h.2.2.2.2.2.1⟩

/-- C3: `find_changed_chunks` implements exactly the four-case ordered diff
policy of the specification, with the remote size read from the
`content-length` header (0 when absent). -/
theorem find_changed_chunks_matches_diff_policy (contentLength : Option Nat)
    (existingChunks : List (List Nat × (Nat × Nat))) (localSize : Option Nat) :
    find_changed_chunks contentLength existingChunks localSize
      = diffPolicySpec (contentLength.getD 0) existingChunks localSize := by
  cases localSize <;> simp [find_changed_chunks, diffPolicySpec]

/-- C4 (counterexample to the claim as stated): a 2-byte file of two
identical 1-byte chunks fingerprints to a single map entry (the hash keys
collide and the dictionary write overwrites the first range), not
`ceil(2/1) = 2` entries, and the range lengths no longer sum to the file
size. -/
theorem get_file_chunks_collision_counterexample :
    (get_file_chunks 1 (some [0, 0])).length = 1
    ∧ (List.length ([0, 0] : List Nat) + 1 - 1) / 1 = 2
    ∧ ((get_file_chunks 1 (some [0, 0])).map (fun e => e.2.2 + 1 - e.2.1)).sum
        ≠ List.length ([0, 0] : List Nat) := by
  refine ⟨by decide, by decide, by decide⟩

/-- C4 (amended): for a file of size `S > 0`, chunk size `C > 0`, *whose
chunk contents are pairwise distinct*, fingerprinting yields exactly
`ceil(S/C)` entries whose ranges tile `[0, S)` contiguously and without
overlap in on-disk order, every range but the last has length `C`, the
last has length `S mod C` (or `C` when `C` divides `S`), and the lengths
sum to `S`. -/
theorem get_file_chunks_spec_of_distinct_chunks (C : Nat) (content : List Nat)
    (hC : 0 < C) (hne : content ≠ [])
    (hnd : ((readChunks C content 0).map Prod.fst).Nodup) :
    (get_file_chunks C (some content)).length = (content.length + C - 1) / C
    ∧ contiguousFrom 0 ((get_file_chunks C (some content)).map Prod.snd) = true
    ∧ (∀ r ∈ ((get_file_chunks C (some content)).map Prod.snd).dropLast,
        r.2 + 1 - r.1 = C)
    ∧ (∀ r, ((get_file_chunks C (some content)).map Prod.snd).getLast? = some r →
        r.2 + 1 - r.1 = if content.length % C = 0 then C else content.length % C)
    ∧ ((get_file_chunks C (some content)).map (fun e => e.2.2 + 1 - e.2.1)).sum
        = content.length := by
  rw [get_file_chunks_eq_readChunks C content hne hnd]
  obtain ⟨h1, h2, h3, h4, h5, _⟩ := readChunks_spec C content 0 hC hne
  exact ⟨h1, h2, h3, h4, h5⟩

/-- C4 (witness): the amended theorem on a 3-byte file with 2-byte chunks
whose two chunks are distinct. -/
theorem get_file_chunks_spec_of_distinct_chunks_witness :
    (0 < 2 ∧ ([5, 6, 7] : List Nat) ≠ []
      ∧ ((readChunks 2 [5, 6, 7] 0).map Prod.fst).Nodup)
    ∧ (get_file_chunks 2 (some [5, 6, 7])).length = 2
    ∧ contiguousFrom 0 ((get_file_chunks 2 (some [5, 6, 7])).map Prod.snd) = true
    ∧ ((get_file_chunks 2 (some [5, 6, 7])).map (fun e => e.2.2 + 1 - e.2.1)).sum
        = 3 := by
  have h := get_file_chunks_spec_of_distinct_chunks 2 [5, 6, 7]
    (by decide) (by decide) (by decide)
  exact ⟨⟨by decide, by decide, by decide⟩, h.1, h.2.1, h.2.2.2.2⟩

/-- C5 (counterexample to the claim as stated): syncing a zero-length
local file against a 3-byte remote whose fetches return empty bodies makes
verification find an empty staging file; the transfer reports failure and
the local file is unchanged, but *no* TransferResult is appended to the
result list — the claimed failed result with the explicit error is absent. -/
theorem verify_empty_staging_counterexample :
    (download_drive_item envC5 false 4 "f" "f" stC5).1 = false
    ∧ (download_drive_item envC5 false 4 "f" "f" stC5).2.results = []
    ∧ alookup (download_drive_item envC5 false 4 "f" "f" stC5).2.files "f"
        = some [] := by
  refine ⟨by decide, by decide, by decide⟩

/-- C5 (amended): whenever the verification step finds the staging file
missing or empty, the engine does not commit and reports failure for the
file, leaving the whole engine state — local file, result list, ledger,
checkpoint — exactly as it was; in particular no TransferResult is
appended. -/
theorem verifyCommit_empty_staging_no_result (vOn : Bool) (lp tp rp ts : String)
    (tot btd nr : Nat) (st : DState)
    (h : alookup st.files tp = none ∨ alookup st.files tp = some []) :
    verifyCommit vOn lp tp rp ts tot btd nr st = (false, st) := by
  rcases h with h | h <;> simp [verifyCommit, h]

/-- C5 (witness): the amended theorem on a concrete state holding an empty
staging file. -/
theorem verifyCommit_empty_staging_no_result_witness :
    alookup ([("f.temp", ([] : List Nat))] : FS) "f.temp" = some []
    ∧ verifyCommit true "f" "f.temp" "f" "T" 3 3 1 ⟨[("f.temp", [])], [], ⟨[], []⟩, none⟩
        = (false, ⟨[("f.temp", [])], [], ⟨[], []⟩, none⟩) :=
  ⟨by decide, verifyCommit_empty_staging_no_result true "f" "f.temp" "f" "T" 3 3 1
    ⟨[("f.temp", [])], [], ⟨[], []⟩, none⟩ (Or.inr (by decide))⟩

/-- C6 (counterexample to the claim as stated): a local file whose size
equals the remote size is skipped — no fetch, nothing touched — but *no*
TransferResult with status `unchanged` is appended: the run's result list
stays empty. -/
theorem unchanged_appends_no_result_counterexample :
    download_drive_item envC6 false 4 "g" "g" stC6 = (true, stC6)
    ∧ (download_drive_item envC6 false 4 "g" "g" stC6).2.results = [] := by
  refine ⟨by decide, by decide⟩

/-- C6 (amended): whenever the computed ChangeSet is empty (in particular
when the local size equals the remote size), the engine performs no fetch
and returns success with the state — local file, result list, ledger,
checkpoint — exactly as it was; no TransferResult is appended. -/
theorem download_unchanged_silent_skip (env : Env) (vOn : Bool) (cs : Nat)
    (lp rp : String) (st : DState) (r : Response)
    (henv : env.itemValid = true) (hopen : env.openResult = .ok r)
    (hrg : find_changed_chunks r.contentLength
        (get_file_chunks cs (alookup st.files lp))
        ((alookup st.files lp).map List.length) = []) :
    download_drive_item env vOn cs lp rp st = (true, st) :=
  download_skip_of_no_ranges env vOn cs lp rp st r henv hopen hrg

/-- C6 (witness): the amended theorem on the concrete size-match scenario. -/
theorem download_unchanged_silent_skip_witness :
    download_drive_item envC6 false 4 "g" "g" stC6 = (true, stC6) :=
  download_unchanged_silent_skip envC6 false 4 "g" "g" stC6 ⟨some 2⟩
    rfl rfl (by decide)

/-- C7: a `record_version` call whose relocation move fails is a no-op:
ledger (in memory and on disk) and file tree are returned unchanged, the
source file still exists with its content, and the next version number
computed for the path is unchanged (no version number is consumed). -/
theorem record_version_move_failure_is_noop (led : Ledger) (fs : FS)
    (relPath checksum srcFile ts : String) (c : List Nat)
    (hsrc : alookup fs srcFile = some c) :
    record_version led fs relPath checksum srcFile ts false = (led, fs)
    ∧ alookup (record_version led fs relPath checksum srcFile ts false).2 srcFile
        = some c
    ∧ nextVersionNr (record_version led fs relPath checksum srcFile ts false).1.data
        relPath = nextVersionNr led.data relPath := by
  have h : record_version led fs relPath checksum srcFile ts false = (led, fs) := by
    simp [record_version, hsrc]
  exact ⟨h, by rw [h]; exact hsrc, by rw [h]⟩

/-- C7 (witness): a concrete failed move against a one-file tree and an
empty ledger. -/
theorem record_version_move_failure_is_noop_witness :
    alookup ([("f", [1])] : FS) "f" = some [1]
    ∧ record_version ⟨[], []⟩ [("f", [1])] "f" "ck" "f" "T" false
        = (⟨[], []⟩, [("f", [1])]) :=
  ⟨by decide,
    (record_version_move_failure_is_noop ⟨[], []⟩ [("f", [1])] "f" "ck" "f" "T" [1]
      (by decide)).1⟩

/-- C8 (the code at the failing input): against a server that persistently
answers HTTP 204 (a non-ok, non-partial status that `raise_for_status`
does not turn into an exception), the retry loop of `download_chunk` never
returns, never raises the fatal range-naming error, and never consumes its
retry budget — for every iteration budget it is still running.  The claim
(and the code's own comment at `raise_for_status`) requires such responses
to count as transport failures that exhaust `max_retries` and then raise. -/
theorem download_chunk_204_runs_forever :
    ∀ fuel, download_chunk 3 (fun _ => .response 204 []) 0 9 fuel = .running := by
  intro fuel
  exact download_chunk_go_204 [] fuel 0 0 none (by omega)

/-- C9 (the code at the failing input): the owned root resolves the first
segment `A` but fails at the second segment `B`; the code nevertheless
falls back to the shared root and returns the shared item, while the claim
(and the code's own comments) say a failure past the first segment must
not fall back and the path must be reported as not found. -/
theorem get_drive_item_falls_back_beyond_first_segment :
    walk (DriveNode.folder [("A", DriveNode.folder [])]) ["A"]
      = some (DriveNode.folder [])
    ∧ walk (DriveNode.folder [("A", DriveNode.folder [])]) ["A", "B"] = none
    ∧ get_drive_item (DriveNode.folder [("A", DriveNode.folder [])])
        (some (DriveNode.folder [("A", DriveNode.folder [("B", DriveNode.file 7)])]))
        "A/B" = .ok (DriveNode.file 7) :=
  ⟨rfl, rfl, rfl⟩

/-- C10: when the response carries no `content-length` header, or one of
`0`, the engine treats the remote size as 0: the ChangeSet is empty, no
fetch happens, and the transfer reports success with the state exactly as
it was — whatever the local file looks like (absent, or of any size). -/
theorem download_missing_content_length_reports_unchanged (env : Env)
    (vOn : Bool) (cs : Nat) (lp rp : String) (st : DState) (r : Response)
    (henv : env.itemValid = true) (hopen : env.openResult = .ok r)
    (hcl : r.contentLength = none ∨ r.contentLength = some 0) :
    download_drive_item env vOn cs lp rp st = (true, st) := by
  have hrg : find_changed_chunks r.contentLength
      (get_file_chunks cs (alookup st.files lp))
      ((alookup st.files lp).map List.length) = [] := by
    rcases hcl with h | h <;> simp [find_changed_chunks, h]
  exact download_skip_of_no_ranges env vOn cs lp rp st r henv hopen hrg

/-- C10 (witness): a header-less response against a present 3-byte local
file — reported unchanged, nothing fetched, nothing touched. -/
theorem download_missing_content_length_witness :
    download_drive_item envC10 false 4 "f" "f" stC1 = (true, stC1) :=
  download_missing_content_length_reports_unchanged envC10 false 4 "f" "f" stC1
    ⟨none⟩ rfl rfl (Or.inl rfl)

end IFetch
